import Mathlib

/-!
Shallow embedding of the `scaffold` pipeline of `src/lib/scaffold.ts`
(the nextellar project bootstrap tool).

Modelling conventions:
* Absolute filesystem paths are lists of path components (`List String`).
  `path.join` / `path.resolve` are modelled by appending the split segments
  and normalising `..`, `.` and empty segments.
* The filesystem is a tree (`FsNode`): a file with text content, or a
  directory given as a cons-list of named children.  Timestamps are not
  modelled (`preserveTimestamps` only affects metadata).
* JavaScript optional values are `Option`; JS truthiness of an optional
  string treats the empty string as falsy, of an optional boolean treats
  `none` as falsy.
* `String.prototype.replaceAll` with a string pattern is modelled by
  `jsReplaceAll` (left-to-right, non-overlapping; the empty pattern
  interleaves the replacement between every character, as in JS).
* `JSON.stringify` applied to an array of strings is modelled by
  `jsonStringifyList`.
* The install runner (`runInstall`, a separate module treated by the spec
  as an external collaborator) is an environment-supplied function from
  the calls `scaffold` makes to results `{success, packageManager}`;
  `scaffold` reads only those two result fields.
* `fs.readJson`/mutate-scripts/`fs.writeJson` on `package.json` is an
  environment-supplied text transform (`Env.pkgJsonTransform`) which may
  fail (readJson throws on malformed JSON); `scaffold` only threads the
  manifest text through it.
-/

/-! ### JS string primitives -/

def lStartsWith : List Char → List Char → Bool
  | [], _ => true
  | _ :: _, [] => false
  | a :: as, b :: bs => a == b && lStartsWith as bs

def lHasSub (needle : List Char) : List Char → Bool
  | [] => lStartsWith needle []
  | c :: rest => lStartsWith needle (c :: rest) || lHasSub needle rest

/-- Model of JavaScript `hay.includes(needle)`. -/
def strContains (hay needle : String) : Bool :=
  lHasSub needle.data hay.data

/-- Fuel-indexed worker for `replaceAll` with a non-empty pattern.
Fuel `hay.length` is always sufficient since every step consumes at least
one character of the haystack. -/
def replAllFuel : Nat → List Char → List Char → List Char → List Char
  | 0, _, _, hay => hay
  | _ + 1, _, _, [] => []
  | fuel + 1, needle, repl, c :: rest =>
    if lStartsWith needle (c :: rest) then
      repl ++ replAllFuel fuel needle repl ((c :: rest).drop needle.length)
    else
      c :: replAllFuel fuel needle repl rest

/-- Model of JavaScript `hay.replaceAll(needle, repl)` for string patterns. -/
def jsReplaceAll (hay needle repl : String) : String :=
  if needle.data.length = 0 then
    ⟨repl.data ++ (hay.data.map (fun c => c :: repl.data)).flatten⟩
  else
    ⟨replAllFuel hay.data.length needle.data repl.data hay.data⟩

/-- The loop body of `replaceInFile`: fold every `(token, value)` pair of the
substitution map over the file content with `replaceAll`, in map order. -/
def applyReplacements (reps : List (String × String)) (content : String) : String :=
  reps.foldl (fun acc kv => jsReplaceAll acc kv.1 kv.2) content

def hexDigit (n : Nat) : Char :=
  if n < 10 then Char.ofNat (48 + n) else Char.ofNat (87 + n)

/-- JSON string escaping as performed by `JSON.stringify` on a string value. -/
def jsonEscapeChar (c : Char) : List Char :=
  if c = '"' then ['\\', '"']
  else if c = '\\' then ['\\', '\\']
  else if c = '\n' then ['\\', 'n']
  else if c = '\r' then ['\\', 'r']
  else if c = '\t' then ['\\', 't']
  else if c.toNat = 8 then ['\\', 'b']
  else if c.toNat = 12 then ['\\', 'f']
  else if c.toNat < 32 then
    ['\\', 'u', '0', '0', hexDigit (c.toNat / 16), hexDigit (c.toNat % 16)]
  else [c]

def jsonQuote (s : String) : String :=
  ⟨'"' :: (s.data.map jsonEscapeChar).flatten ++ ['"']⟩

/-- Model of `JSON.stringify` applied to an array of strings. -/
def jsonStringifyList (l : List String) : String :=
  "[" ++ String.intercalate "," (l.map jsonQuote) ++ "]"

/-! ### Paths -/

def splitSegs : List Char → List Char → List String
  | [], acc => [⟨acc.reverse⟩]
  | c :: rest, acc =>
    if c = '/' then ⟨acc.reverse⟩ :: splitSegs rest [] else splitSegs rest (c :: acc)

def splitPath (s : String) : List String :=
  splitSegs s.data []

/-- Normalise path segments: resolve `..`, drop `.` and empty segments
(as `path.join`/`path.resolve` do for the paths the tool builds). -/
def normSegs (segs : List String) : List String :=
  segs.foldl
    (fun acc seg =>
      if seg = ".." then acc.dropLast
      else if seg = "." then acc
      else if seg = "" then acc
      else acc ++ [seg])
    []

/-- Model of `path.join(base, s)` (also used for `path.resolve(base, s)`
with an absolute, already-normalised base). -/
def joinPath (base : List String) (s : String) : List String :=
  normSegs (base ++ splitPath s)

/-- Model of `path.basename` on a component-list path. -/
def basenameOf (p : List String) : String :=
  p.getLastD ""

/-! ### Filesystem trees -/

/-- A filesystem node: a file with text content, or a directory whose
children are encoded as a cons-list (`nilDir` / `consDir name child rest`). -/
inductive FsNode where
  | file (content : String)
  | nilDir
  | consDir (name : String) (child : FsNode) (rest : FsNode)
deriving DecidableEq, Repr

def lookupFs : FsNode → List String → Option FsNode
  | t, [] => some t
  | .file _, _ :: _ => none
  | .nilDir, _ :: _ => none
  | .consDir m c rest, n :: ps =>
    if m = n then lookupFs c ps else lookupFs rest (n :: ps)

/-- Model of `fs.pathExists` / `fs.existsSync`. -/
def pathExistsB (fs : FsNode) (p : List String) : Bool :=
  (lookupFs fs p).isSome

/-- Build a chain of fresh directories holding `v` at relative path `ps`. -/
def mkPath : List String → FsNode → FsNode
  | [], v => v
  | n :: ps, v => .consDir n (mkPath ps v) .nilDir

/-- Write the node `v` at path `p`, creating intermediate directories and
overwriting whatever was there. -/
def insertAt : FsNode → List String → FsNode → FsNode
  | _, [], v => v
  | .consDir m c rest, n :: ps, v =>
    if m = n then .consDir m (insertAt c ps v) rest
    else .consDir m c (insertAt rest (n :: ps) v)
  | .file _, n :: ps, v => .consDir n (mkPath ps v) .nilDir
  | .nilDir, n :: ps, v => .consDir n (mkPath ps v) .nilDir

/-- Look up the immediate child `n` of a directory node. -/
def dirLookup : FsNode → String → Option FsNode
  | .consDir m c rest, n => if m = n then some c else dirLookup rest n
  | _, _ => none

/-- Replace (or append) the immediate child `n` of a directory node. -/
def dirSet : FsNode → String → FsNode → FsNode
  | .consDir m c rest, n, v =>
    if m = n then .consDir m v rest else .consDir m c (dirSet rest n v)
  | .nilDir, n, v => .consDir n v .nilDir
  | .file _, n, v => .consDir n v .nilDir

/-! ### The filtered template copy (lines 65-71 of scaffold.ts) -/

/-- The copy filter of the materialisation step:
`basename !== ".git" && basename !== "node_modules"`. -/
def copyFilterB (src : List String) : Bool :=
  basenameOf src != ".git" && basenameOf src != "node_modules"

/-- Base names excluded by the copy filter. -/
def excludedName (n : String) : Bool :=
  n == ".git" || n == "node_modules"

/-- Recursive filtered copy, as `fs.copy` does with a filter: the filter is
consulted on every child path; a rejected entry is skipped together with
its whole subtree.  (The filter is applied to the copy root at the call
site, as `fs-extra` does.) -/
def copyTree (filt : List String → Bool) (p : List String) : FsNode → FsNode
  | .file c => .file c
  | .nilDir => .nilDir
  | .consDir n child rest =>
    if filt (p ++ [n]) then
      .consDir n (copyTree filt (p ++ [n]) child) (copyTree filt p rest)
    else copyTree filt p rest

/-- Recursive merge copy, as `fs.copy` does when the destination exists
(the contracts-template overlay, lines 76-80): source entries overwrite
same-named destination files, directories are merged, and a file/directory
kind clash is an error. -/
def mergeCopy : FsNode → FsNode → Except String FsNode
  | .file c, .file _ => .ok (.file c)
  | .file _, _ => .error "Cannot overwrite directory with non-directory"
  | .nilDir, .file _ => .error "Cannot overwrite non-directory with directory"
  | .nilDir, d => .ok d
  | .consDir _ _ _, .file _ => .error "Cannot overwrite non-directory with directory"
  | .consDir n c rest, d =>
    match dirLookup d n with
    | none => mergeCopy rest (dirSet d n c)
    | some existing =>
      match mergeCopy c existing with
      | .error e => .error e
      | .ok merged => mergeCopy rest (dirSet d n merged)

/-! ### Data model of the scaffold request and environment -/

inductive PkgManager where
  | npm
  | yarn
  | pnpm
deriving DecidableEq, Repr

/-- The `ScaffoldOptions` interface (lines 9-21 of scaffold.ts).  Optional
fields are `Option`. -/
structure ScaffoldOptions where
  appName : String
  useTs : Bool
  template : Option String
  withContracts : Option Bool
  horizonUrl : Option String
  sorobanUrl : Option String
  wallets : Option (List String)
  defaults : Option Bool
  skipInstall : Option Bool
  packageManager : Option PkgManager
  installTimeout : Option Nat
deriving DecidableEq, Repr

/-- The argument object `scaffold` passes to `runInstall` (lines 142-147). -/
structure InstallCall where
  cwd : List String
  skipInstall : Option Bool
  packageManager : Option PkgManager
  timeout : Option Nat
deriving DecidableEq, Repr

/-- The install delegate's result; `scaffold` reads only the success flag
and the package manager actually used (lines 149-153). -/
structure InstallResult where
  success : Bool
  packageManager : String
deriving DecidableEq, Repr

/-- The ambient environment of a `scaffold` call: the module's directory
(`__dirname`), the process working directory, the filesystem, the install
delegate, and the `readJson`/add-scripts/`writeJson` round-trip on the
manifest text (lines 84-88), modelled as a text transform that fails on
malformed JSON. -/
structure Env where
  dirname : List String
  cwd : List String
  fs : FsNode
  runInstall : InstallCall → InstallResult
  pkgJsonTransform : String → Except String String

/-- The errors `scaffold` can surface, tagged with the taxonomy of the spec;
each constructor carries the thrown `Error` message. -/
inductive ScaffoldError where
  | unsupportedTemplate (message : String)
  | dirExists (message : String)
  | fsFailure (message : String)
  | installFailure (message : String)
deriving DecidableEq, Repr

def ScaffoldError.isDirExists : ScaffoldError → Bool
  | .dirExists _ => true
  | _ => false

/-- Outcome of a filesystem-mutating stage: either the updated filesystem,
or a thrown error together with the filesystem at the moment of the throw. -/
inductive StRes where
  | ok (fs : FsNode)
  | err (e : ScaffoldError) (fs : FsNode)
deriving DecidableEq, Repr

def StRes.bind (r : StRes) (f : FsNode → StRes) : StRes :=
  match r with
  | .ok fs => f fs
  | .err e fs => .err e fs

def StRes.errOf : StRes → Option ScaffoldError
  | .ok _ => none
  | .err e _ => some e

def StRes.fsOf : StRes → FsNode
  | .ok fs => fs
  | .err _ fs => fs

/-- Full observable outcome of a `scaffold` call: the error (if it threw),
the final filesystem, the calls made to the install delegate, and the
console lines printed. -/
structure ScaffoldRun where
  error : Option ScaffoldError
  fs : FsNode
  installCalls : List InstallCall
  logs : List String
deriving DecidableEq, Repr

/-! ### Request-derived values -/

/-- JS `o || d` for an optional string (`undefined` and `""` are falsy). -/
def jsOrStr (o : Option String) (d : String) : String :=
  match o with
  | some s => if s = "" then d else s
  | none => d

/-- JS truthiness of an optional boolean. -/
def jsTruthy (o : Option Bool) : Bool :=
  o.getD false

/-- JS truthiness of an optional string. -/
def jsTruthyStr (o : Option String) : Bool :=
  match o with
  | some s => !(s == "")
  | none => false

/-- Line 37: `const templateName = template || "default";`. -/
def templateNameOf (opts : ScaffoldOptions) : String :=
  jsOrStr opts.template "default"

/-- Line 43: `const resolvedTemplateName = useTs ? templateName : "js-template";`. -/
def resolvedTemplateNameOf (opts : ScaffoldOptions) : String :=
  if opts.useTs then templateNameOf opts else "js-template"

def unsupportedTemplateMsg (t : String) : String :=
  "Template \"" ++ t ++ "\" is not available for JavaScript yet. Please use the default template with --javascript."

def dirExistsMsg (appName : String) : String :=
  "Directory \"" ++ appName ++ "\" already exists."

def installFailureMsg (pm appName : String) : String :=
  "Dependency installation failed. Please run \"" ++ pm ++ " install\" manually in \"" ++ appName ++ "\"."

def scaffoldLogMsg (appName : String) : String :=
  "Scaffolded \"" ++ appName ++ "\" from template."

/-- The block appended to `.env.example` by the contracts feature
(lines 92-95): a leading newline, a comment header line, and one
placeholder contract-ID variable line. -/
def envAppendStr : String :=
  "\n# Soroban Smart Contracts\nNEXT_PUBLIC_HELLO_WORLD_CONTRACT_ID=C_REPLACE_WITH_YOUR_CONTRACT_ID\n"

def defaultWallets : List String :=
  ["freighter", "albedo", "lobstr"]

/-- The substitution map (lines 110-120), in insertion order
(`Object.entries` preserves it). -/
def configOf (opts : ScaffoldOptions) : List (String × String) :=
  [("\x7b\x7bAPP_NAME\x7d\x7d", opts.appName),
   ("\x7b\x7bHORIZON_URL\x7d\x7d", jsOrStr opts.horizonUrl "https://horizon-testnet.stellar.org"),
   ("\x7b\x7bSOROBAN_URL\x7d\x7d", jsOrStr opts.sorobanUrl "https://soroban-testnet.stellar.org"),
   ("\x7b\x7bNETWORK\x7d\x7d",
     if jsTruthyStr opts.horizonUrl && strContains (opts.horizonUrl.getD "") "public"
     then "PUBLIC" else "TESTNET"),
   ("\x7b\x7bWALLETS\x7d\x7d",
     if (match opts.wallets with | some l => decide (l.length > 0) | none => false)
     then jsonStringifyList (opts.wallets.getD [])
     else jsonStringifyList defaultWallets)]

/-- The value a token resolves to in a substitution map. -/
def tokenValue (cfg : List (String × String)) (k : String) : String :=
  ((cfg.find? (fun e => e.1 == k)).map (fun e => e.2)).getD ""

/-! ### Pipeline stages -/

/-- The fixed template-root search list (lines 46-52). -/
def templateRootsOf (dirname : List String) : List (List String) :=
  [joinPath dirname "../templates",
   joinPath dirname "../../templates",
   joinPath dirname "../../../src/templates",
   joinPath dirname "../../nextellar/src/templates",
   joinPath dirname "../../../nextellar/src/templates"]

/-- The manifest probe of the locator:
`fs.existsSync(path.join(candidate, resolvedTemplateName, "package.json"))`. -/
def manifestProbe (fs : FsNode) (candidate : List String) (name : String) : Bool :=
  pathExistsB fs (joinPath (joinPath candidate name) "package.json")

/-- Template-root resolution (lines 53-56): first candidate whose manifest
probe succeeds, else unconditionally the last candidate. -/
def locateRoot (fs : FsNode) (roots : List (List String)) (name : String) : List String :=
  (roots.find? (fun c => manifestProbe fs c name)).getD (roots.getLastD [])

/-- The materialisation step (lines 65-71): filtered copy of the template
directory to the target.  `fs.copy` fails if the source does not exist;
with a filter, a rejected copy root means nothing is copied at all. -/
def copyStage (fs : FsNode) (templateDir targetDir : List String) : StRes :=
  match lookupFs fs templateDir with
  | none => .err (.fsFailure "ENOENT: no such file or directory, template source missing") fs
  | some src =>
    .ok (if copyFilterB templateDir then
           insertAt fs targetDir (copyTree copyFilterB templateDir src)
         else fs)

/-- Is a node a directory (of either shape)? -/
def isDirB : FsNode → Bool
  | .file _ => false
  | .nilDir => true
  | .consDir _ _ _ => true

/-- Model of `fs.appendFile(path, data)`: append to an existing file;
create the file only when its parent directory already exists
(`appendFile` does not create parent directories); fail with EISDIR on a
directory target, ENOENT when the parent chain is missing, and ENOTDIR
when an ancestor on the path is a file. -/
def appendFileFs : FsNode → List String → String → Except String FsNode
  | .file c, [], data => .ok (.file (c ++ data))
  | _, [], _ => .error "EISDIR: illegal operation on a directory, open"
  | .file _, _ :: _, _ => .error "ENOTDIR: not a directory, open"
  | t, [n], data =>
    match dirLookup t n with
    | none => .ok (dirSet t n (.file data))
    | some (.file c) => .ok (dirSet t n (.file (c ++ data)))
    | some _ => .error "EISDIR: illegal operation on a directory, open"
  | t, n :: p2 :: ps, data =>
    match dirLookup t n with
    | none => .error "ENOENT: no such file or directory, open"
    | some child =>
      match appendFileFs child (p2 :: ps) data with
      | .ok c2 => .ok (dirSet t n c2)
      | .error e => .error e

/-- The environment-sample append of the contracts feature (lines 91-95):
`fs.appendFile` on `{target}/.env.example` with the contracts block; the
file is appended to or created, with `appendFile`'s error behaviour when
the target directory is missing or the path is a directory. -/
def appendEnvStage (targetDir : List String) (fs : FsNode) : StRes :=
  match appendFileFs fs (joinPath targetDir ".env.example") envAppendStr with
  | .ok fs2 => .ok fs2
  | .error m => .err (.fsFailure m) fs

/-- The manifest-scripts step of the contracts feature (lines 82-89):
if `package.json` exists in the target it is read, the two contract script
entries are added, and it is written back; modelled by the environment's
`pkgJsonTransform` round-trip on the manifest text. -/
def pkgScriptsStage (transform : String → Except String String)
    (targetDir : List String) (fs : FsNode) : StRes :=
  match lookupFs fs (joinPath targetDir "package.json") with
  | some (.file content) =>
    match transform content with
    | .ok newContent =>
      .ok (insertAt fs (joinPath targetDir "package.json") (.file newContent))
    | .error m => .err (.fsFailure m) fs
  | some .nilDir => .err (.fsFailure "EISDIR: illegal operation on a directory") fs
  | some (.consDir _ _ _) => .err (.fsFailure "EISDIR: illegal operation on a directory") fs
  | none => .ok fs

/-- The contracts-template overlay (lines 74-80): if the secondary template
exists under the resolved root, copy it on top of the target (merging
directories, overwriting files). -/
def overlayStage (templateRoot targetDir : List String) (fs : FsNode) : StRes :=
  match lookupFs fs (joinPath templateRoot "contracts-template") with
  | none => .ok fs
  | some cnode =>
    match lookupFs fs targetDir with
    | none => .ok (insertAt fs targetDir cnode)
    | some dnode =>
      match mergeCopy cnode dnode with
      | .ok merged => .ok (insertAt fs targetDir merged)
      | .error m => .err (.fsFailure m) fs

/-- The whole contracts feature (lines 73-96), a no-op when the flag is
falsy. -/
def contractsStage (withContracts : Bool) (transform : String → Except String String)
    (templateRoot targetDir : List String) (fs : FsNode) : StRes :=
  if withContracts then
    StRes.bind (overlayStage templateRoot targetDir fs) (fun fsA =>
      StRes.bind (pkgScriptsStage transform targetDir fsA) (fun fsB =>
        appendEnvStage targetDir fsB))
  else .ok fs

/-- The whitelist of files handed to the substitution loop (lines 122-132). -/
def filesToProcess (targetDir : List String) : List (List String) :=
  [joinPath targetDir "package.json",
   joinPath targetDir "README.md",
   joinPath targetDir "src/contexts/WalletProvider.tsx",
   joinPath targetDir "src/contexts/WalletProvider.jsx",
   joinPath targetDir "src/lib/stellar-wallet-kit.ts",
   joinPath targetDir "src/lib/stellar-wallet-kit.js",
   joinPath targetDir "src/hooks/useSorobanContract.ts",
   joinPath targetDir "src/hooks/useSorobanContract.js",
   joinPath targetDir ".env.example"]

/-- The substitution loop (lines 134-138): for each whitelisted path that
exists, read it, apply every replacement, and write it back
(`replaceInFile`, lines 98-108).  Reading a directory fails. -/
def substFiles (cfg : List (String × String)) : List (List String) → FsNode → StRes
  | [], fs => .ok fs
  | p :: rest, fs =>
    match lookupFs fs p with
    | none => substFiles cfg rest fs
    | some (.file content) =>
      substFiles cfg rest (insertAt fs p (.file (applyReplacements cfg content)))
    | some .nilDir => .err (.fsFailure "EISDIR: illegal operation on a directory") fs
    | some (.consDir _ _ _) => .err (.fsFailure "EISDIR: illegal operation on a directory") fs

def substStage (cfg : List (String × String)) (targetDir : List String)
    (fs : FsNode) : StRes :=
  substFiles cfg (filesToProcess targetDir) fs

/-- Everything `scaffold` does before the install delegation: validation,
template resolution, target-absence check, materialisation, contracts
feature, token substitution (lines 37-138). -/
def scaffoldCore (opts : ScaffoldOptions) (env : Env) : StRes :=
  if !opts.useTs && (templateNameOf opts != "default") then
    .err (.unsupportedTemplate (unsupportedTemplateMsg (templateNameOf opts))) env.fs
  else
    StRes.bind
      (if pathExistsB env.fs (joinPath env.cwd opts.appName) then
         .err (.dirExists (dirExistsMsg opts.appName)) env.fs
       else
         copyStage env.fs
           (joinPath (locateRoot env.fs (templateRootsOf env.dirname) (resolvedTemplateNameOf opts))
             (resolvedTemplateNameOf opts))
           (joinPath env.cwd opts.appName))
      (fun fs1 =>
        StRes.bind
          (contractsStage (jsTruthy opts.withContracts) env.pkgJsonTransform
            (locateRoot env.fs (templateRootsOf env.dirname) (resolvedTemplateNameOf opts))
            (joinPath env.cwd opts.appName) fs1)
          (fun fs2 => substStage (configOf opts) (joinPath env.cwd opts.appName) fs2))

/-- The argument object `scaffold` passes to the install delegate
(lines 142-147): the target directory as working directory, and the skip
flag, package-manager selection and timeout forwarded from the request. -/
def installCallOf (opts : ScaffoldOptions) (env : Env) : InstallCall :=
  ⟨joinPath env.cwd opts.appName, opts.skipInstall, opts.packageManager, opts.installTimeout⟩

/-- The full `scaffold` orchestrator (lines 23-154): the core pipeline,
then the confirmation line, the install delegation, and the escalation of
a reported install failure unless the skip flag was set (lines 140-153). -/
def scaffold (opts : ScaffoldOptions) (env : Env) : ScaffoldRun :=
  match scaffoldCore opts env with
  | .err e fs => ⟨some e, fs, [], []⟩
  | .ok fs =>
    let call := installCallOf opts env
    let result := env.runInstall call
    if !result.success && !jsTruthy opts.skipInstall then
      ⟨some (.installFailure (installFailureMsg result.packageManager opts.appName)),
        fs, [call], [scaffoldLogMsg opts.appName]⟩
    else
      ⟨none, fs, [call], [scaffoldLogMsg opts.appName]⟩


/-! ### Concrete fixtures used by witnesses and counterexamples -/

/-- A small template tree: a manifest, one source file, and the two
excluded directory kinds at the top level. -/
def sampleTemplate : FsNode :=
  .consDir "package.json" (.file "\x7b\x7d")
    (.consDir "index.ts" (.file "hi")
      (.consDir "node_modules" (.consDir "dep" (.file "x") .nilDir)
        (.consDir ".git" (.consDir "HEAD" (.file "ref") .nilDir) .nilDir)))

/-- A filesystem holding the sample template under the first search root
for `dirname = ["opt", "lib"]`, and an empty home directory. -/
def rootFs : FsNode :=
  .consDir "opt"
    (.consDir "templates" (.consDir "default" sampleTemplate .nilDir) .nilDir)
    (.consDir "home" .nilDir .nilDir)

/-- The same filesystem with a pre-existing `home/taken` directory. -/
def rootFsTaken : FsNode :=
  .consDir "opt"
    (.consDir "templates" (.consDir "default" sampleTemplate .nilDir) .nilDir)
    (.consDir "home" (.consDir "taken" (.consDir "keep.txt" (.file "data") .nilDir) .nilDir) .nilDir)

def okInstall : InstallCall → InstallResult := fun _ => ⟨true, "npm"⟩

def failInstall : InstallCall → InstallResult := fun _ => ⟨false, "yarn"⟩

def idTransform : String → Except String String := fun s => .ok s

def baseEnv : Env := ⟨["opt", "lib"], ["home"], rootFs, okInstall, idTransform⟩

def takenEnv : Env := ⟨["opt", "lib"], ["home"], rootFsTaken, okInstall, idTransform⟩

def failEnv : Env := ⟨["opt", "lib"], ["home"], rootFs, failInstall, idTransform⟩

/-- A request with every optional field absent. -/
def baseOpts : ScaffoldOptions :=
  ⟨"demo", true, none, none, none, none, none, none, none, none, none⟩

/-! ### Helper lemmas: substring search -/

theorem lStartsWith_self_append (l r : List Char) : lStartsWith l (l ++ r) = true := by
  induction l with
  | nil => rfl
  | cons a as ih => simp [lStartsWith, ih]

theorem lHasSub_nil_needle (l : List Char) : lHasSub [] l = true := by
  cases l <;> simp [lHasSub, lStartsWith]

theorem lHasSub_self_append (needle r : List Char) :
    lHasSub needle (needle ++ r) = true := by
  cases needle with
  | nil => exact lHasSub_nil_needle r
  | cons a as =>
    have h := lStartsWith_self_append (a :: as) r
    simp only [List.cons_append] at h
    simp [List.cons_append, lHasSub, h]

theorem lHasSub_append_right (needle l r : List Char) (h : lHasSub needle r = true) :
    lHasSub needle (l ++ r) = true := by
  induction l with
  | nil => simpa using h
  | cons a as ih => simp [List.cons_append, lHasSub, ih]

theorem strData_append (a b : String) : (a ++ b).data = a.data ++ b.data := rfl

theorem strContains_cat (pre mid post : String) :
    strContains (pre ++ mid ++ post) mid = true := by
  unfold strContains
  rw [strData_append, strData_append, List.append_assoc]
  exact lHasSub_append_right _ _ _ (lHasSub_self_append _ _)

theorem strContains_installMsg_pm (pm n : String) :
    strContains (installFailureMsg pm n) pm = true := by
  unfold installFailureMsg strContains
  simp only [strData_append, List.append_assoc]
  exact lHasSub_append_right _ _ _ (lHasSub_self_append _ _)

theorem strContains_installMsg_app (pm n : String) :
    strContains (installFailureMsg pm n) n = true := by
  unfold installFailureMsg strContains
  simp only [strData_append, List.append_assoc]
  exact lHasSub_append_right _ _ _ (lHasSub_append_right _ _ _
    (lHasSub_append_right _ _ _ (lHasSub_self_append _ _)))

/-! ### Helper lemmas: filesystem writes -/

theorem lookup_mkPath (ps : List String) (v : FsNode) :
    lookupFs (mkPath ps v) ps = some v := by
  induction ps with
  | nil => simp [mkPath, lookupFs]
  | cons n ps ih => simp [mkPath, lookupFs, ih]

theorem lookup_insertAt_self (t : FsNode) (p : List String) (v : FsNode) :
    lookupFs (insertAt t p v) p = some v := by
  induction t generalizing p with
  | file c =>
    cases p with
    | nil => simp [insertAt, lookupFs]
    | cons n ps => simp [insertAt, lookupFs, lookup_mkPath]
  | nilDir =>
    cases p with
    | nil => simp [insertAt, lookupFs]
    | cons n ps => simp [insertAt, lookupFs, lookup_mkPath]
  | consDir m c rest ihc ihr =>
    cases p with
    | nil => simp [insertAt, lookupFs]
    | cons n ps =>
      by_cases h : m = n
      · subst h
        simp [insertAt, lookupFs, ihc]
      · simp [insertAt, lookupFs, h, ihr]

/-! ### Helper lemmas: replaceAll -/

theorem replAllFuel_no_occ (needle repl : List Char) :
    ∀ fuel hay, lHasSub needle hay = false → replAllFuel fuel needle repl hay = hay := by
  intro fuel
  induction fuel with
  | zero => intro hay _; rfl
  | succ f ih =>
    intro hay h
    cases hay with
    | nil => rfl
    | cons c rest =>
      simp only [lHasSub, Bool.or_eq_false_iff] at h
      simp [replAllFuel, h.1, ih rest h.2]

/-! ### Helper lemmas: the copy filter -/

theorem copyFilterB_concat (xs : List String) (n : String) :
    copyFilterB (xs ++ [n]) = !excludedName n := by
  unfold copyFilterB excludedName basenameOf
  rw [List.getLastD_concat]
  cases h1 : n == ".git" <;> cases h2 : n == "node_modules" <;> simp [bne, h1, h2]

/-- C5: materialisation prunes every entry whose base name is `.git` or
`node_modules`, together with its whole subtree (an entry survives only if
no component of its relative path is excluded), and copies every other
entry unchanged: looking up a relative path `p` in the copied tree yields
exactly the source entry at `p` (recursively filtered the same way, hence
a file's content byte-identical), or `none` when some component of `p` is
excluded. -/
theorem copyTree_excludes (t : FsNode) (base p : List String) :
    lookupFs (copyTree copyFilterB base t) p =
      if p.any excludedName then none
      else (lookupFs t p).map (fun s => copyTree copyFilterB (base ++ p) s) := by
  induction t generalizing base p with
  | file c =>
    cases p with
    | nil => simp [copyTree, lookupFs]
    | cons n ps => simp [copyTree, lookupFs, ite_self]
  | nilDir =>
    cases p with
    | nil => simp [copyTree, lookupFs]
    | cons n ps => simp [copyTree, lookupFs, ite_self]
  | consDir m child rest ihc ihr =>
    cases p with
    | nil => simp [lookupFs]
    | cons n ps =>
      by_cases hm : excludedName m = true
      · have hf : copyFilterB (base ++ [m]) = false := by
          rw [copyFilterB_concat, hm]; rfl
        rw [show copyTree copyFilterB base (.consDir m child rest)
              = copyTree copyFilterB base rest from by simp [copyTree, hf]]
        rw [ihr base (n :: ps)]
        by_cases hmn : m = n
        · subst hmn
          simp [List.any_cons, hm]
        · simp [lookupFs, hmn]
      · have hm' : excludedName m = false := by
          cases h : excludedName m
          · rfl
          · exact absurd h hm
        have hf : copyFilterB (base ++ [m]) = true := by
          rw [copyFilterB_concat, hm']; rfl
        rw [show copyTree copyFilterB base (.consDir m child rest)
              = .consDir m (copyTree copyFilterB (base ++ [m]) child)
                  (copyTree copyFilterB base rest) from by simp [copyTree, hf]]
        by_cases hmn : m = n
        · subst hmn
          have hL : lookupFs (FsNode.consDir m (copyTree copyFilterB (base ++ [m]) child)
              (copyTree copyFilterB base rest)) (m :: ps)
              = lookupFs (copyTree copyFilterB (base ++ [m]) child) ps := by
            simp [lookupFs]
          have hR : lookupFs (FsNode.consDir m child rest) (m :: ps)
              = lookupFs child ps := by
            simp [lookupFs]
          rw [hL, ihc (base ++ [m]) ps, hR]
          simp only [List.any_cons, hm', Bool.false_or]
          rw [List.append_cons base m ps]
        · have hL : lookupFs (FsNode.consDir m (copyTree copyFilterB (base ++ [m]) child)
              (copyTree copyFilterB base rest)) (n :: ps)
              = lookupFs (copyTree copyFilterB base rest) (n :: ps) := by
            simp [lookupFs, hmn]
          have hR : lookupFs (FsNode.consDir m child rest) (n :: ps)
              = lookupFs rest (n :: ps) := by
            simp [lookupFs, hmn]
          rw [hL, ihr base (n :: ps), hR]

/-! ### Helper lemmas: list search -/

theorem find?_first {α : Type} (p : α → Bool) :
    ∀ (pre : List α) (c : α) (post : List α),
      (∀ r ∈ pre, p r = false) → p c = true →
      (pre ++ c :: post).find? p = some c := by
  intro pre
  induction pre with
  | nil =>
    intro c post _ hc
    simp [List.find?_cons_of_pos _ hc]
  | cons a as ih =>
    intro c post hpre hc
    have ha : ¬ p a := by simp [hpre a (List.mem_cons_self a as)]
    simp only [List.cons_append]
    rw [List.find?_cons_of_neg _ ha]
    exact ih c post (fun r hr => hpre r (List.mem_cons_of_mem _ hr)) hc

theorem getLastD_mem {α : Type} :
    ∀ (l : List α) (d : α), l ≠ [] → l.getLastD d ∈ l := by
  intro l
  induction l with
  | nil => intro d h; exact absurd rfl h
  | cons a as ih =>
    intro d _
    cases as with
    | nil => simp
    | cons b bs =>
      rw [List.getLastD_cons]
      exact List.mem_cons_of_mem _ (ih a (by simp))

/-- C4: template-root resolution picks the first candidate in the search
list whose `{root}/{templateName}/package.json` probe succeeds; when no
candidate matches it returns the last candidate unconditionally; and it
always returns some candidate of a non-empty list (it is total — never an
error). -/
theorem locateRoot_resolution (fs : FsNode) (roots : List (List String)) (name : String) :
    (∀ pre c post, roots = pre ++ c :: post →
        (∀ r ∈ pre, manifestProbe fs r name = false) →
        manifestProbe fs c name = true →
        locateRoot fs roots name = c)
  ∧ ((∀ r ∈ roots, manifestProbe fs r name = false) →
        locateRoot fs roots name = roots.getLastD [])
  ∧ (roots ≠ [] → locateRoot fs roots name ∈ roots) := by
  refine ⟨?_, ?_, ?_⟩
  · intro pre c post hsplit hpre hc
    unfold locateRoot
    rw [hsplit, find?_first _ pre c post hpre hc]
    rfl
  · intro hall
    unfold locateRoot
    rw [List.find?_eq_none.mpr (fun x hx => by simp [hall x hx])]
    rfl
  · intro hne
    unfold locateRoot
    cases hres : roots.find? (fun c => manifestProbe fs c name) with
    | some r =>
      simpa using List.mem_of_find?_eq_some hres
    | none =>
      simpa using getLastD_mem roots [] hne

/-- Witness for C4: on a filesystem with no template anywhere, resolution
over the real search list for `dirname = ["opt", "lib"]` returns the last
candidate. -/
theorem locateRoot_resolution_witness :
    locateRoot .nilDir (templateRootsOf ["opt", "lib"]) "default"
      = ["nextellar", "src", "templates"] := by
  have h := (locateRoot_resolution .nilDir (templateRootsOf ["opt", "lib"]) "default").2.1
    (by decide)
  rw [h]
  rfl

/-- C8: a file whose content has no occurrence of any token of the
substitution map is left byte-identical by the substitution step
(the loop body of `replaceInFile`). -/
theorem applyReplacements_no_token_identity (reps : List (String × String)) (content : String)
    (h : ∀ kv ∈ reps, strContains content kv.1 = false) :
    applyReplacements reps content = content := by
  induction reps with
  | nil => rfl
  | cons kv rest ih =>
    have hk : strContains content kv.1 = false := h kv (List.mem_cons_self kv rest)
    have hne : kv.1.data ≠ [] := by
      intro hnil
      have htrue : strContains content kv.1 = true := by
        show lHasSub kv.1.data content.data = true
        rw [hnil]
        exact lHasSub_nil_needle content.data
      rw [htrue] at hk
      simp at hk
    have hrepl : jsReplaceAll content kv.1 kv.2 = content := by
      unfold jsReplaceAll
      rw [if_neg (fun hl => hne (List.length_eq_zero.mp hl))]
      rw [replAllFuel_no_occ kv.1.data kv.2.data content.data.length content.data hk]
    show applyReplacements (kv :: rest) content = content
    unfold applyReplacements
    simp only [List.foldl_cons]
    rw [hrepl]
    exact ih (fun kv2 hm => h kv2 (List.mem_cons_of_mem _ hm))

/-- C2: an untyped-mode request with a non-default template name fails with
the unsupported-template error (whose message names the offending
template), before any filesystem write: the filesystem is unchanged, no
install call is made, and nothing is logged — in particular the target
directory is never created. -/
theorem scaffold_untyped_nondefault_fails (opts : ScaffoldOptions) (env : Env)
    (h1 : opts.useTs = false) (h2 : templateNameOf opts ≠ "default") :
    scaffold opts env
      = ⟨some (.unsupportedTemplate (unsupportedTemplateMsg (templateNameOf opts))),
         env.fs, [], []⟩
  ∧ strContains (unsupportedTemplateMsg (templateNameOf opts)) (templateNameOf opts) = true := by
  have hc : (!opts.useTs && (templateNameOf opts != "default")) = true := by
    rw [h1]
    simp [bne_iff_ne, h2]
  have hcore : scaffoldCore opts env
      = .err (.unsupportedTemplate (unsupportedTemplateMsg (templateNameOf opts))) env.fs := by
    unfold scaffoldCore
    simp [hc]
  constructor
  · unfold scaffold
    rw [hcore]
  · exact strContains_cat _ _ _

/-- Witness for C2 at a concrete request and environment. -/
theorem scaffold_untyped_nondefault_fails_witness :
    scaffold { baseOpts with useTs := false, template := some "fancy" } baseEnv
      = ⟨some (.unsupportedTemplate (unsupportedTemplateMsg "fancy")), baseEnv.fs, [], []⟩
  ∧ strContains (unsupportedTemplateMsg "fancy") "fancy" = true :=
  scaffold_untyped_nondefault_fails _ _ rfl (by decide)

/-- C3 counterexample: the claim is false as universally stated — a request
whose target directory pre-exists but which is in untyped mode with a
non-default template fails with the unsupported-template error, not with
the directory-exists error. -/
theorem scaffold_target_exists_counterexample :
    pathExistsB takenEnv.fs (joinPath takenEnv.cwd "taken") = true
  ∧ (scaffold { baseOpts with appName := "taken", useTs := false, template := some "custom" }
        takenEnv).error
      = some (.unsupportedTemplate (unsupportedTemplateMsg "custom"))
  ∧ ((scaffold { baseOpts with appName := "taken", useTs := false, template := some "custom" }
        takenEnv).error.map ScaffoldError.isDirExists) = some false := by
  decide

/-- C3 (amended): a request that passes template validation (typed mode, or
the default template) and whose target directory pre-exists fails with the
directory-exists error (whose message names the directory) and performs no
filesystem mutation — the pre-existing contents are untouched — with no
install call and no log line. -/
theorem scaffold_target_exists_fails (opts : ScaffoldOptions) (env : Env)
    (hv : opts.useTs = true ∨ templateNameOf opts = "default")
    (hex : pathExistsB env.fs (joinPath env.cwd opts.appName) = true) :
    scaffold opts env = ⟨some (.dirExists (dirExistsMsg opts.appName)), env.fs, [], []⟩
  ∧ strContains (dirExistsMsg opts.appName) opts.appName = true := by
  have hc : (!opts.useTs && (templateNameOf opts != "default")) = false := by
    rcases hv with h | h
    · rw [h]
      rfl
    · rw [h]
      simp
  have hcore : scaffoldCore opts env = .err (.dirExists (dirExistsMsg opts.appName)) env.fs := by
    unfold scaffoldCore
    rw [hc]
    simp only [Bool.false_eq_true, if_false]
    rw [if_pos hex]
    rfl
  constructor
  · unfold scaffold
    rw [hcore]
  · exact strContains_cat _ _ _

/-- Witness for the amended C3 at a concrete request and environment. -/
theorem scaffold_target_exists_fails_witness :
    scaffold { baseOpts with appName := "taken" } takenEnv
      = ⟨some (.dirExists (dirExistsMsg "taken")), takenEnv.fs, [], []⟩
  ∧ strContains (dirExistsMsg "taken") "taken" = true :=
  scaffold_target_exists_fails _ _ (Or.inl rfl) (by decide)

/-- C1 counterexample: with the contracts flag set and no `.env.example` in
the target, the merger does not skip the append step — `fs.appendFile`
creates the file, which afterwards holds exactly the appended block; the
run succeeds. -/
theorem contracts_env_created_counterexample :
    lookupFs baseEnv.fs ["home", "demo", ".env.example"] = none
  ∧ (scaffold { baseOpts with withContracts := some true } baseEnv).error = none
  ∧ lookupFs (scaffold { baseOpts with withContracts := some true } baseEnv).fs
      ["home", "demo", ".env.example"] = some (.file envAppendStr) := by
  decide

/-! ### Helper lemmas: appendFile -/

theorem lookupFs_cons (t : FsNode) (n : String) (ps : List String) :
    lookupFs t (n :: ps)
      = (match dirLookup t n with
         | some c => lookupFs c ps
         | none => none) := by
  induction t with
  | file c => simp [lookupFs, dirLookup]
  | nilDir => simp [lookupFs, dirLookup]
  | consDir m c rest ihc ihr =>
    by_cases h : m = n
    · subst h
      simp [lookupFs, dirLookup]
    · simp [lookupFs, dirLookup, h, ihr]

theorem lookup_dirSet_self (t : FsNode) (n : String) (v : FsNode) (ps : List String) :
    lookupFs (dirSet t n v) (n :: ps) = lookupFs v ps := by
  induction t with
  | file c => simp [dirSet, lookupFs]
  | nilDir => simp [dirSet, lookupFs]
  | consDir m c rest ihc ihr =>
    by_cases h : m = n
    · subst h
      simp [dirSet, lookupFs]
    · simp [dirSet, lookupFs, h, ihr]

theorem normSegs_append (l : List String) (x : String)
    (h1 : x ≠ "..") (h2 : x ≠ ".") (h3 : x ≠ "") :
    normSegs (l ++ [x]) = normSegs l ++ [x] := by
  unfold normSegs
  rw [List.foldl_append]
  simp [h1, h2, h3]

theorem joinPath_env (targetDir : List String) :
    joinPath targetDir ".env.example" = normSegs targetDir ++ [".env.example"] := by
  unfold joinPath
  rw [show splitPath ".env.example" = [".env.example"] from rfl]
  exact normSegs_append _ _ (by decide) (by decide) (by decide)

theorem appendFileFs_existing (data : String) :
    ∀ (p : List String) (t : FsNode) (c : String),
      lookupFs t p = some (.file c) →
      ∃ t2, appendFileFs t p data = .ok t2
        ∧ lookupFs t2 p = some (.file (c ++ data)) := by
  intro p
  induction p with
  | nil =>
    intro t c h
    simp [lookupFs] at h
    subst h
    exact ⟨.file (c ++ data), rfl, rfl⟩
  | cons n rest ih =>
    intro t c h
    rw [lookupFs_cons] at h
    cases hd : dirLookup t n with
    | none =>
      rw [hd] at h
      cases h
    | some child =>
      rw [hd] at h
      cases t with
      | file tc => simp [dirLookup] at hd
      | nilDir => simp [dirLookup] at hd
      | consDir m tc tr =>
        cases rest with
        | nil =>
          simp only [lookupFs] at h
          cases h
          refine ⟨dirSet (.consDir m tc tr) n (.file (c ++ data)), ?_, ?_⟩
          · simp [appendFileFs, hd]
          · rw [lookup_dirSet_self]
            rfl
        | cons p2 ps =>
          obtain ⟨c2, ha, hl⟩ := ih child c h
          refine ⟨dirSet (.consDir m tc tr) n c2, ?_, ?_⟩
          · simp [appendFileFs, hd, ha]
          · rw [lookup_dirSet_self]
            exact hl

theorem appendFileFs_create (data : String) :
    ∀ (pp : List String) (t : FsNode) (n : String),
      lookupFs t (pp ++ [n]) = none →
      (∃ d, lookupFs t pp = some d ∧ isDirB d = true) →
      ∃ t2, appendFileFs t (pp ++ [n]) data = .ok t2
        ∧ lookupFs t2 (pp ++ [n]) = some (.file data) := by
  intro pp
  induction pp with
  | nil =>
    intro t n hmiss hdir
    obtain ⟨d, hd, hdir2⟩ := hdir
    simp [lookupFs] at hd
    subst hd
    rw [List.nil_append] at hmiss ⊢
    rw [lookupFs_cons] at hmiss
    cases hl : dirLookup t n with
    | some child =>
      rw [hl] at hmiss
      simp [lookupFs] at hmiss
    | none =>
      cases t with
      | file tc => simp [isDirB] at hdir2
      | nilDir =>
        refine ⟨dirSet .nilDir n (.file data), ?_, ?_⟩
        · simp [appendFileFs, hl]
        · rw [lookup_dirSet_self]
          rfl
      | consDir m tc tr =>
        refine ⟨dirSet (.consDir m tc tr) n (.file data), ?_, ?_⟩
        · simp [appendFileFs, hl]
        · rw [lookup_dirSet_self]
          rfl
  | cons q qq ih =>
    intro t n hmiss hdir
    obtain ⟨d, hd, hdir2⟩ := hdir
    rw [lookupFs_cons] at hd
    cases hq : dirLookup t q with
    | none =>
      rw [hq] at hd
      cases hd
    | some child =>
      rw [hq] at hd
      have hmiss2 : lookupFs child (qq ++ [n]) = none := by
        rw [List.cons_append, lookupFs_cons, hq] at hmiss
        exact hmiss
      obtain ⟨c2, ha, hl2⟩ := ih child n hmiss2 ⟨d, hd, hdir2⟩
      cases t with
      | file tc => simp [dirLookup] at hq
      | nilDir => simp [dirLookup] at hq
      | consDir m tc tr =>
        cases hqq : qq ++ [n] with
        | nil => exact absurd hqq (by simp)
        | cons p2 ps =>
          rw [hqq] at ha hl2
          refine ⟨dirSet (.consDir m tc tr) q c2, ?_, ?_⟩
          · show appendFileFs (.consDir m tc tr) ((q :: qq) ++ [n]) data = _
            rw [List.cons_append, hqq]
            simp [appendFileFs, hq, ha]
          · rw [List.cons_append, hqq, lookup_dirSet_self]
            exact hl2

/-- C1 (amended): the environment-sample append of the contracts feature
runs unconditionally: when `.env.example` exists as a file in the target,
the block (a leading newline, one comment header line, one placeholder
contract-ID variable line) is appended to its content; when the file does
not exist and the target directory does, `fs.appendFile` creates the file
holding exactly that block (it does not create missing parent
directories — with the target directory absent the append fails
instead). -/
theorem appendEnvStage_unconditional (fs : FsNode) (targetDir : List String) :
    (∀ c, lookupFs fs (joinPath targetDir ".env.example") = some (.file c) →
       ∃ fs2, appendEnvStage targetDir fs = .ok fs2
       ∧ lookupFs fs2 (joinPath targetDir ".env.example") = some (.file (c ++ envAppendStr)))
  ∧ (lookupFs fs (joinPath targetDir ".env.example") = none →
     (∃ d, lookupFs fs (normSegs targetDir) = some d ∧ isDirB d = true) →
       ∃ fs2, appendEnvStage targetDir fs = .ok fs2
       ∧ lookupFs fs2 (joinPath targetDir ".env.example") = some (.file envAppendStr))
  ∧ envAppendStr = "\n"
      ++ "# Soroban Smart Contracts" ++ "\n"
      ++ "NEXT_PUBLIC_HELLO_WORLD_CONTRACT_ID=C_REPLACE_WITH_YOUR_CONTRACT_ID" ++ "\n" := by
  refine ⟨?_, ?_, rfl⟩
  · intro c h
    obtain ⟨fs2, ha, hl⟩ :=
      appendFileFs_existing envAppendStr (joinPath targetDir ".env.example") fs c h
    refine ⟨fs2, ?_, hl⟩
    unfold appendEnvStage
    rw [ha]
  · intro hmiss hdir
    rw [joinPath_env] at hmiss
    obtain ⟨fs2, ha, hl⟩ :=
      appendFileFs_create envAppendStr (normSegs targetDir) fs ".env.example" hmiss hdir
    refine ⟨fs2, ?_, ?_⟩
    · unfold appendEnvStage
      rw [joinPath_env, ha]
    · rw [joinPath_env]
      exact hl

/-- Witness for the amended C1: a filesystem whose target directory
`home/demo` exists but holds no `.env.example`; the append step creates
the file with exactly the block. -/
theorem appendEnvStage_unconditional_witness :
    ∃ fs2, appendEnvStage ["home", "demo"]
        (.consDir "home" (.consDir "demo" .nilDir .nilDir) .nilDir) = .ok fs2
    ∧ lookupFs fs2 (joinPath ["home", "demo"] ".env.example")
        = some (.file envAppendStr) :=
  (appendEnvStage_unconditional
    (.consDir "home" (.consDir "demo" .nilDir .nilDir) .nilDir)
    ["home", "demo"]).2.1 rfl ⟨.nilDir, rfl, rfl⟩

/-- C6: when the core pipeline succeeds, `scaffold` makes exactly one
install call with the target directory and the forwarded options; if the
delegate reports failure and the skip flag was not set, it fails with the
install-failure error whose message names the package manager the delegate
actually attempted and the target directory's name; if the skip flag was
set, it completes successfully even on a reported failure. -/
theorem scaffold_install_escalation (opts : ScaffoldOptions) (env : Env)
    (h : (scaffoldCore opts env).errOf = none) :
    (scaffold opts env).installCalls = [installCallOf opts env]
  ∧ ((env.runInstall (installCallOf opts env)).success = false →
       jsTruthy opts.skipInstall = false →
       (scaffold opts env).error
         = some (.installFailure (installFailureMsg
             (env.runInstall (installCallOf opts env)).packageManager opts.appName))
       ∧ strContains
           (installFailureMsg (env.runInstall (installCallOf opts env)).packageManager opts.appName)
           (env.runInstall (installCallOf opts env)).packageManager = true
       ∧ strContains
           (installFailureMsg (env.runInstall (installCallOf opts env)).packageManager opts.appName)
           opts.appName = true)
  ∧ (jsTruthy opts.skipInstall = true → (scaffold opts env).error = none) := by
  cases hcore : scaffoldCore opts env with
  | err e fs =>
    rw [hcore] at h
    exact absurd h (by simp [StRes.errOf])
  | ok fs =>
    have hrun : scaffold opts env =
        (if !(env.runInstall (installCallOf opts env)).success && !jsTruthy opts.skipInstall then
          ⟨some (.installFailure (installFailureMsg
              (env.runInstall (installCallOf opts env)).packageManager opts.appName)),
            fs, [installCallOf opts env], [scaffoldLogMsg opts.appName]⟩
        else ⟨none, fs, [installCallOf opts env], [scaffoldLogMsg opts.appName]⟩) := by
      unfold scaffold
      rw [hcore]
    refine ⟨?_, ?_, ?_⟩
    · rw [hrun]
      split <;> rfl
    · intro hsucc hskip
      have hcond : (!(env.runInstall (installCallOf opts env)).success
          && !jsTruthy opts.skipInstall) = true := by
        rw [hsucc, hskip]
        rfl
      rw [hrun, if_pos hcond]
      exact ⟨rfl, strContains_installMsg_pm _ _, strContains_installMsg_app _ _⟩
    · intro hskip
      have hcond : (!(env.runInstall (installCallOf opts env)).success
          && !jsTruthy opts.skipInstall) = false := by
        rw [hskip]
        simp
      rw [hrun, if_neg (by simp [hcond])]

/-- Witness for C6: a concrete run whose delegate fails with manager
"yarn" and no skip flag escalates with the expected message. -/
theorem scaffold_install_escalation_witness :
    (scaffold baseOpts failEnv).error
      = some (.installFailure (installFailureMsg "yarn" "demo")) :=
  ((scaffold_install_escalation baseOpts failEnv (by decide)).2.1 rfl rfl).1

/-- C7: the network-label token resolves to "PUBLIC" exactly when a horizon
URL was supplied and contains the substring "public"; in every other case
it resolves to "TESTNET", in particular when the horizon URL is unset (the
horizon-URL token then defaulting to the public test endpoint). -/
theorem network_token_resolution (opts : ScaffoldOptions) :
    (tokenValue (configOf opts) "\x7b\x7bNETWORK\x7d\x7d" = "PUBLIC"
        ↔ ∃ s, opts.horizonUrl = some s ∧ strContains s "public" = true)
  ∧ (tokenValue (configOf opts) "\x7b\x7bNETWORK\x7d\x7d" = "PUBLIC"
      ∨ tokenValue (configOf opts) "\x7b\x7bNETWORK\x7d\x7d" = "TESTNET")
  ∧ (opts.horizonUrl = none →
        tokenValue (configOf opts) "\x7b\x7bNETWORK\x7d\x7d" = "TESTNET"
      ∧ tokenValue (configOf opts) "\x7b\x7bHORIZON_URL\x7d\x7d"
          = "https://horizon-testnet.stellar.org") := by
  have hval : tokenValue (configOf opts) "\x7b\x7bNETWORK\x7d\x7d"
      = (if jsTruthyStr opts.horizonUrl && strContains (opts.horizonUrl.getD "") "public"
         then "PUBLIC" else "TESTNET") := rfl
  have hvalH : tokenValue (configOf opts) "\x7b\x7bHORIZON_URL\x7d\x7d"
      = jsOrStr opts.horizonUrl "https://horizon-testnet.stellar.org" := rfl
  cases hh : opts.horizonUrl with
  | none =>
    rw [hval, hvalH, hh]
    refine ⟨?_, Or.inr rfl, fun _ => ⟨rfl, rfl⟩⟩
    constructor
    · intro habs
      exact absurd habs (by decide)
    · rintro ⟨s, hs, _⟩
      cases hs
  | some s =>
    rw [hval, hvalH, hh]
    by_cases hp : strContains s "public" = true
    · have hs : (s == "") = false := by
        cases hse : s == ""
        · rfl
        · have hse2 : s = "" := eq_of_beq hse
          rw [hse2] at hp
          exact absurd hp (by decide)
      have hcond : (jsTruthyStr (some s)
          && strContains ((some s : Option String).getD "") "public") = true := by
        simp [jsTruthyStr, hs, Option.getD, hp]
      rw [if_pos hcond]
      refine ⟨?_, Or.inl rfl, fun habs => by cases habs⟩
      exact ⟨fun _ => ⟨s, rfl, hp⟩, fun _ => rfl⟩
    · have hp2 : strContains s "public" = false := by
        cases hpp : strContains s "public"
        · rfl
        · exact absurd hpp hp
      have hcond : (jsTruthyStr (some s)
          && strContains ((some s : Option String).getD "") "public") = false := by
        simp [jsTruthyStr, Option.getD, hp2]
      rw [if_neg (fun hx => Bool.false_ne_true (hcond ▸ hx))]
      refine ⟨?_, Or.inr rfl, fun habs => by cases habs⟩
      constructor
      · intro habs
        exact absurd habs (by decide)
      · rintro ⟨t, ht, hc⟩
        cases ht
        exact absurd hc (by simp [hp2])

/-- Witness for C7: a supplied horizon URL containing "public" resolves
the network token to "PUBLIC". -/
theorem network_token_resolution_witness :
    tokenValue (configOf { baseOpts with horizonUrl := some "https://horizon.stellar.org/public" })
      "\x7b\x7bNETWORK\x7d\x7d" = "PUBLIC" :=
  (network_token_resolution _).1.mpr ⟨"https://horizon.stellar.org/public", rfl, by decide⟩

/-- C9: the wallet-list token resolves to the JSON-array string of the
user-supplied wallet identifiers when that list is non-empty, and to the
JSON-array string of the fixed three-item default list when the wallet
list is absent or empty. -/
theorem wallets_token_resolution (opts : ScaffoldOptions) :
    (∀ l, opts.wallets = some l → l ≠ [] →
        tokenValue (configOf opts) "\x7b\x7bWALLETS\x7d\x7d" = jsonStringifyList l)
  ∧ ((opts.wallets = none ∨ opts.wallets = some []) →
        tokenValue (configOf opts) "\x7b\x7bWALLETS\x7d\x7d" = jsonStringifyList defaultWallets)
  ∧ jsonStringifyList defaultWallets = "[\"freighter\",\"albedo\",\"lobstr\"]" := by
  have hval : tokenValue (configOf opts) "\x7b\x7bWALLETS\x7d\x7d"
      = (if (match opts.wallets with | some l => decide (l.length > 0) | none => false)
         then jsonStringifyList (opts.wallets.getD [])
         else jsonStringifyList defaultWallets) := rfl
  refine ⟨?_, ?_, rfl⟩
  · intro l hl hne
    rw [hval, hl]
    have hlen : decide (l.length > 0) = true := by
      simp [List.length_pos, hne]
    simp [hlen, Option.getD]
  · intro hcase
    rcases hcase with h | h
    · rw [hval, h]
      rfl
    · rw [hval, h]
      rfl

/-- Witness for C9: a supplied one-item wallet list resolves to its JSON
array string. -/
theorem wallets_token_resolution_witness :
    tokenValue (configOf { baseOpts with wallets := some ["xbull"] }) "\x7b\x7bWALLETS\x7d\x7d"
      = jsonStringifyList ["xbull"] :=
  (wallets_token_resolution _).1 ["xbull"] rfl (by decide)

/-- Witness for C8: a substitution map whose token does not occur in the
content leaves it byte-identical. -/
theorem applyReplacements_no_token_identity_witness :
    applyReplacements [("\x7b\x7bAPP_NAME\x7d\x7d", "demo")] "hello world" = "hello world" :=
  applyReplacements_no_token_identity _ _ (by decide)

/-- C10: the `defaults` field of the request is never read — two requests
differing only in it produce the same outcome: the same error (if any),
the same final filesystem, the same install calls, and the same log
lines. -/
theorem scaffold_ignores_defaults (opts : ScaffoldOptions) (env : Env) (d1 d2 : Option Bool) :
    scaffold { opts with defaults := d1 } env = scaffold { opts with defaults := d2 } env :=
  rfl
